import Mathlib

/-!
# Verification of the drone-runner-ssh execution core

A shallow embedding, in Lean 4, of the parts of the `drone-runner-ssh`
repository that the specification's claims are about:

* `engine/util.go` — the script writer (`writeWorkdir`, `writeSecrets`,
  `writeEnviron`, `writeEnv`, `removeCommand`) in its current revision
  (sorted environment keys, base64-encoded values);
* `engine/engine.go` — `Setup`, `Run`, `Destroy` of the SSH engine;
* `engine/compiler/compiler.go` — server-connection secret resolution,
  hostname port defaulting, step run-policy assignment, `findSecret`;
* `resource` package — the `lint` and `parse` functions.

Go strings are byte sequences, so they are modelled as `List Nat`
(each element intended `< 256`); Go maps are modelled as association
lists whose list order stands for the map's unspecified iteration
order.  External effects (SFTP, SSH sessions, secret providers) are
modelled as oracle functions passed in explicitly.
-/

/-- Bytes of an ASCII string literal (every literal used by the program
is ASCII, where code point = byte value). -/
def s2b (s : String) : List Nat :=
  s.data.map Char.toNat

/-- Go's byte-wise lexicographic string comparison `s <= t`, as used by
`sort.Strings` in `writeEnviron`. -/
def bytesLe : List Nat → List Nat → Bool
  | [], _ => true
  | _ :: _, [] => false
  | a :: as, b :: bs =>
    if a < b then true else if b < a then false else bytesLe as bs

/-- The ordering relation underlying `sort.Strings`. -/
def bLE (a b : List Nat) : Prop := bytesLe a b = true

instance : DecidableRel bLE := fun a b => by
  unfold bLE; infer_instance

theorem bytesLe_total : ∀ a b : List Nat, bytesLe a b = true ∨ bytesLe b a = true := by
  intro a
  induction a with
  | nil => intro b; left; rfl
  | cons x xs ih =>
    intro b
    cases b with
    | nil => right; rfl
    | cons y ys =>
      simp only [bytesLe]
      rcases Nat.lt_trichotomy x y with h | h | h
      · left; simp [h]
      · subst h
        have := ih ys
        rcases this with h' | h'
        · left; simp [h']
        · right; simp [h']
      · right; simp [h, Nat.lt_asymm h]

theorem bytesLe_trans : ∀ a b c : List Nat,
    bytesLe a b = true → bytesLe b c = true → bytesLe a c = true := by
  intro a
  induction a with
  | nil => intro b c _ _; rfl
  | cons x xs ih =>
    intro b c hab hbc
    cases b with
    | nil => simp [bytesLe] at hab
    | cons y ys =>
      cases c with
      | nil => simp [bytesLe] at hbc
      | cons z zs =>
        simp only [bytesLe] at hab hbc ⊢
        by_cases hxy : x < y
        · by_cases hyz : y < z
          · simp [Nat.lt_trans hxy hyz]
          · by_cases hzy : z < y
            · simp [hyz, hzy] at hbc
            · have : y = z := Nat.le_antisymm (Nat.le_of_not_lt hzy) (Nat.le_of_not_lt hyz)
              subst this
              simp [hxy]
        · by_cases hyx : y < x
          · simp [hxy, hyx] at hab
          · have : x = y := by omega
            subst this
            simp only [Nat.lt_irrefl, if_false] at hab
            by_cases hyz : x < z
            · simp [hyz]
            · by_cases hzy : z < x
              · simp [hyz, hzy] at hbc
              · have : x = z := Nat.le_antisymm (Nat.le_of_not_lt hzy) (Nat.le_of_not_lt hyz)
                subst this
                simp only [Nat.lt_irrefl, if_false] at hbc ⊢
                exact ih ys zs hab hbc

theorem bytesLe_antisymm : ∀ a b : List Nat,
    bytesLe a b = true → bytesLe b a = true → a = b := by
  intro a
  induction a with
  | nil =>
    intro b _ hba
    cases b with
    | nil => rfl
    | cons y ys => simp [bytesLe] at hba
  | cons x xs ih =>
    intro b hab hba
    cases b with
    | nil => simp [bytesLe] at hab
    | cons y ys =>
      simp only [bytesLe] at hab hba
      by_cases hxy : x < y
      · simp [hxy, Nat.lt_asymm hxy] at hba
      · by_cases hyx : y < x
        · simp [hxy, hyx] at hab
        · have hx : x = y := by omega
          subst hx
          simp only [Nat.lt_irrefl, if_false] at hab hba
          rw [ih ys hab hba]

instance : IsTotal (List Nat) bLE := ⟨bytesLe_total⟩
instance : IsTrans (List Nat) bLE := ⟨bytesLe_trans⟩
instance : IsAntisymm (List Nat) bLE := ⟨bytesLe_antisymm⟩

/-! ## Base64 (Go `encoding/base64` StdEncoding, as used by `writeEnv`) -/

/-- The standard base64 alphabet. -/
def b64Alphabet : List Nat :=
  s2b "ABCDEFGHIJKLMNOPQRSTUVWXYZabcdefghijklmnopqrstuvwxyz0123456789+/"

/-- Byte of the base64 character for a 6-bit group. -/
def b64Char (n : Nat) : Nat := b64Alphabet.getD n 0

/-- 6-bit group of a base64 character byte. -/
def b64Index (c : Nat) : Nat := b64Alphabet.indexOf c

/-- `base64.StdEncoding.EncodeToString` on a byte sequence: 3-byte groups
become 4 alphabet characters; a trailing group of 1 or 2 bytes is padded
with `'='` (byte 61). -/
def b64EncodeBytes : List Nat → List Nat
  | [] => []
  | [b1] => [b64Char (b1 / 4), b64Char (b1 % 4 * 16), 61, 61]
  | [b1, b2] => [b64Char (b1 / 4), b64Char (b1 % 4 * 16 + b2 / 16), b64Char (b2 % 16 * 4), 61]
  | b1 :: b2 :: b3 :: rest =>
    b64Char (b1 / 4) :: b64Char (b1 % 4 * 16 + b2 / 16) ::
      b64Char (b2 % 16 * 4 + b3 / 64) :: b64Char (b3 % 64) :: b64EncodeBytes rest

/-- Standard base64 decoding (what `base64 -d` / `[Convert]::FromBase64String`
compute on the encoder's output). -/
def b64DecodeBytes : List Nat → List Nat
  | c1 :: c2 :: c3 :: c4 :: rest =>
    if c3 = 61 then [b64Index c1 * 4 + b64Index c2 / 16]
    else if c4 = 61 then
      [b64Index c1 * 4 + b64Index c2 / 16, b64Index c2 % 16 * 16 + b64Index c3 / 4]
    else
      (b64Index c1 * 4 + b64Index c2 / 16) :: (b64Index c2 % 16 * 16 + b64Index c3 / 4) ::
        (b64Index c3 % 4 * 64 + b64Index c4) :: b64DecodeBytes rest
  | _ => []

theorem b64Index_b64Char_fin : ∀ s : Fin 64, b64Index (b64Char s.val) = s.val := by decide

theorem b64Char_mem_fin : ∀ s : Fin 64, b64Char s.val ∈ b64Alphabet := by decide

theorem b64Index_b64Char {s : Nat} (h : s < 64) : b64Index (b64Char s) = s :=
  b64Index_b64Char_fin ⟨s, h⟩

theorem b64Char_mem {s : Nat} (h : s < 64) : b64Char s ∈ b64Alphabet :=
  b64Char_mem_fin ⟨s, h⟩

theorem eq_byte_not_mem_b64Alphabet : (61 : Nat) ∉ b64Alphabet := by decide

theorem b64Char_ne_61 {s : Nat} (h : s < 64) : b64Char s ≠ 61 := by
  intro hc
  exact eq_byte_not_mem_b64Alphabet (hc ▸ b64Char_mem h)

/-- Decoding inverts encoding on byte sequences. -/
theorem b64_roundtrip : ∀ bs : List Nat, (∀ b ∈ bs, b < 256) →
    b64DecodeBytes (b64EncodeBytes bs) = bs := by
  intro bs
  induction bs using b64EncodeBytes.induct with
  | case1 => intro _; rfl
  | case2 b1 =>
    intro h
    have hb1 : b1 < 256 := h b1 (by simp)
    simp only [b64EncodeBytes, b64DecodeBytes]
    simp only [if_true]
    rw [b64Index_b64Char (by omega), b64Index_b64Char (by omega)]
    simp only [List.cons.injEq, and_true]
    omega
  | case3 b1 b2 =>
    intro h
    have hb1 : b1 < 256 := h b1 (by simp)
    have hb2 : b2 < 256 := h b2 (by simp)
    simp only [b64EncodeBytes, b64DecodeBytes]
    rw [if_neg (b64Char_ne_61 (by omega))]
    simp only [if_true]
    rw [b64Index_b64Char (by omega), b64Index_b64Char (by omega),
      b64Index_b64Char (by omega)]
    simp only [List.cons.injEq, and_true]
    omega
  | case4 b1 b2 b3 rest ih =>
    intro h
    have hb1 : b1 < 256 := h b1 (by simp)
    have hb2 : b2 < 256 := h b2 (by simp)
    have hb3 : b3 < 256 := h b3 (by simp)
    simp only [b64EncodeBytes, b64DecodeBytes]
    rw [if_neg (b64Char_ne_61 (by omega)), if_neg (b64Char_ne_61 (by omega))]
    rw [b64Index_b64Char (by omega), b64Index_b64Char (by omega),
      b64Index_b64Char (by omega), b64Index_b64Char (by omega)]
    rw [ih (fun b hb => h b (by simp [hb]))]
    simp only [List.cons.injEq, and_true]
    omega

/-! ## Script writer (`engine/util.go`, current revision)

The Go writers append to a `bytes.Buffer`; each is modelled as a function
from the buffer contents `w` to the new buffer contents. -/

/-- An environment map (Go `map[string]string`): an association list whose
order stands for the map's unspecified iteration order. -/
abbrev EnvMap := List (List Nat × List Nat)

/-- `engine.Secret` (the fields the script writer reads). -/
structure Secret where
  name : List Nat
  env : List Nat
  data : List Nat
  mask : Bool

/-- Go map lookup `envs[k]` for a key known to be present. -/
def lookupEnv (k : List Nat) (envs : EnvMap) : List Nat :=
  ((envs.find? (fun p => p.1 == k)).map Prod.snd).getD []

/-- `writeWorkdir`: `fmt.Fprintf(w, "cd %s", path); fmt.Fprintln(w)`. -/
def writeWorkdir (w path : List Nat) : List Nat :=
  w ++ s2b "cd " ++ path ++ [10]

/-- `writeEnv`: base64-encodes the value and emits the OS-specific export
line with an inline decode. -/
def writeEnv (w os key value : List Nat) : List Nat :=
  let encodedValue := b64EncodeBytes value
  if os = s2b "windows" then
    w ++ s2b "$Env:" ++ key ++
      s2b " = \"$([Text.Encoding]::Utf8.GetString([Convert]::FromBase64String('" ++
      encodedValue ++ s2b "')))\"" ++ [10]
  else
    w ++ s2b "export " ++ key ++ s2b "=\"$(echo " ++ encodedValue ++
      s2b " | base64 -d)\"" ++ [10]

/-- `writeSecrets`: one `writeEnv` per secret, keyed by `s.Env` with value
`s.Data`, in list order. -/
def writeSecrets (w os : List Nat) (secrets : List Secret) : List Nat :=
  secrets.foldl (fun w s => writeEnv w os s.env s.data) w

/-- The sorted key list of `writeEnviron` (`sort.Strings(keys)`). -/
def sortedKeys (envs : EnvMap) : List (List Nat) :=
  List.insertionSort bLE (envs.map Prod.fst)

/-- `writeEnviron`: collects the map's keys, sorts them, and emits one
`writeEnv` line per key. -/
def writeEnviron (w os : List Nat) (envs : EnvMap) : List Nat :=
  (sortedKeys envs).foldl (fun w k => writeEnv w os k (lookupEnv k envs)) w

/-- `removeCommand`: OS-specific recursive directory removal command. -/
def removeCommand (os path : List Nat) : List Nat :=
  if os = s2b "windows" then
    s2b "powershell -noprofile -noninteractive -command \"Remove-Item " ++ path ++
      s2b " -Recurse -Force\""
  else
    s2b "rm -rf " ++ path

theorem writeEnv_append (w os key value : List Nat) :
    writeEnv w os key value = w ++ writeEnv [] os key value := by
  unfold writeEnv
  split <;> simp

theorem foldl_append_join {α : Type} (g : α → List Nat) :
    ∀ (l : List α) (w : List Nat),
      l.foldl (fun acc x => acc ++ g x) w = w ++ (l.map g).flatten := by
  intro l
  induction l with
  | nil => intro w; simp
  | cons x xs ih =>
    intro w
    simp only [List.foldl_cons, List.map_cons, List.flatten]
    rw [ih]
    simp [List.append_assoc]

theorem writeSecrets_eq (w os : List Nat) (secrets : List Secret) :
    writeSecrets w os secrets =
      w ++ (secrets.map (fun s => writeEnv [] os s.env s.data)).flatten := by
  unfold writeSecrets
  have hfun : (fun (w : List Nat) (s : Secret) => writeEnv w os s.env s.data) =
      fun w s => w ++ writeEnv [] os s.env s.data := by
    funext w s; exact writeEnv_append w os s.env s.data
  rw [hfun]
  exact foldl_append_join (fun s => writeEnv [] os s.env s.data) secrets w

theorem writeEnviron_eq (w os : List Nat) (envs : EnvMap) :
    writeEnviron w os envs =
      w ++ ((sortedKeys envs).map (fun k => writeEnv [] os k (lookupEnv k envs))).flatten := by
  unfold writeEnviron
  have hfun : (fun (w : List Nat) (k : List Nat) => writeEnv w os k (lookupEnv k envs)) =
      fun w k => w ++ writeEnv [] os k (lookupEnv k envs) := by
    funext w k; exact writeEnv_append w os k (lookupEnv k envs)
  rw [hfun]
  exact foldl_append_join _ _ w

/-! ## Re-parsing export lines (for the round-trip property of `writeEnviron`) -/

/-- Strips an expected literal from the front of a byte sequence. -/
def stripLit : List Nat → List Nat → Option (List Nat)
  | [], l => some l
  | _ :: _, [] => none
  | p :: ps, c :: cs => if p = c then stripLit ps cs else none

/-- Splits a byte sequence at newline bytes. -/
def splitNL : List Nat → List (List Nat)
  | [] => [[]]
  | c :: rest =>
    if c = 10 then [] :: splitNL rest
    else
      match splitNL rest with
      | [] => [[c]]
      | l :: ls => (c :: l) :: ls

/-- Parses one POSIX export line `export K="$(echo E | base64 -d)"`,
recovering the key and the base64-decoded value. -/
def parseLinePosix (l : List Nat) : Option (List Nat × List Nat) :=
  match stripLit (s2b "export ") l with
  | none => none
  | some r =>
    let k := r.takeWhile (fun c => c != 61)
    match stripLit (s2b "=\"$(echo ") (r.drop k.length) with
    | none => none
    | some r2 =>
      let e := r2.takeWhile (fun c => c != 32)
      if r2.drop e.length = s2b " | base64 -d)\"" then some (k, b64DecodeBytes e)
      else none

/-- Parses one PowerShell export line
`$Env:K = "$([Text.Encoding]::Utf8.GetString([Convert]::FromBase64String('E')))"`. -/
def parseLineWindows (l : List Nat) : Option (List Nat × List Nat) :=
  match stripLit (s2b "$Env:") l with
  | none => none
  | some r =>
    let k := r.takeWhile (fun c => c != 32)
    match stripLit
        (s2b " = \"$([Text.Encoding]::Utf8.GetString([Convert]::FromBase64String('")
        (r.drop k.length) with
    | none => none
    | some r2 =>
      let e := r2.takeWhile (fun c => c != 39)
      if r2.drop e.length = s2b "')))\"" then some (k, b64DecodeBytes e)
      else none

/-- Parses one export line of either syntax. -/
def parseLine (l : List Nat) : Option (List Nat × List Nat) :=
  match parseLinePosix l with
  | some kv => some kv
  | none => parseLineWindows l

/-- Parses a block of export lines back into key/value pairs. -/
def parseEnviron (bytes : List Nat) : EnvMap :=
  (splitNL bytes).filterMap parseLine

/-- The entries of an environment map in ascending key order (the order
`writeEnviron` emits them in). -/
def sortEntries (envs : EnvMap) : EnvMap :=
  (sortedKeys envs).map (fun k => (k, lookupEnv k envs))

theorem stripLit_self : ∀ (p rest : List Nat), stripLit p (p ++ rest) = some rest := by
  intro p
  induction p with
  | nil => intro rest; rfl
  | cons x xs ih => intro rest; simp [stripLit, ih]

theorem splitNL_append : ∀ (line rest : List Nat), 10 ∉ line →
    splitNL (line ++ 10 :: rest) = line :: splitNL rest := by
  intro line
  induction line with
  | nil => intro rest _; simp [splitNL]
  | cons c cs ih =>
    intro rest h
    have hc : c ≠ 10 := fun hc => h (by simp [hc])
    have hcs : 10 ∉ cs := fun hm => h (by simp [hm])
    simp only [List.cons_append, splitNL, if_neg hc]
    rw [show cs.append (10 :: rest) = cs ++ 10 :: rest from rfl, ih rest hcs]

theorem takeWhile_append_eq {p : Nat → Bool} :
    ∀ (xs : List Nat) (y : Nat) (ys : List Nat), (∀ a ∈ xs, p a = true) → p y = false →
      (xs ++ y :: ys).takeWhile p = xs := by
  intro xs
  induction xs with
  | nil => intro y ys _ hy; simp [List.takeWhile, hy]
  | cons x xs ih =>
    intro y ys hall hy
    have hx : p x = true := hall x (by simp)
    simp only [List.cons_append, List.takeWhile_cons, hx, if_true]
    rw [ih y ys (fun a ha => hall a (by simp [ha])) hy]

theorem drop_length_append : ∀ (xs ys : List Nat), (xs ++ ys).drop xs.length = ys := by
  intro xs ys
  simp

/-- Bytes of a POSIX export line (without the trailing newline). -/
def posixLine (key enc : List Nat) : List Nat :=
  s2b "export " ++ key ++ s2b "=\"$(echo " ++ enc ++ s2b " | base64 -d)\""

/-- Bytes of a PowerShell export line (without the trailing newline). -/
def windowsLine (key enc : List Nat) : List Nat :=
  s2b "$Env:" ++ key ++
    s2b " = \"$([Text.Encoding]::Utf8.GetString([Convert]::FromBase64String('" ++
    enc ++ s2b "')))\""

theorem writeEnv_posix (os key value : List Nat) (hos : os ≠ s2b "windows") :
    writeEnv [] os key value = posixLine key (b64EncodeBytes value) ++ [10] := by
  simp [writeEnv, posixLine, hos, List.append_assoc]

theorem writeEnv_windows (key value : List Nat) :
    writeEnv [] (s2b "windows") key value = windowsLine key (b64EncodeBytes value) ++ [10] := by
  simp [writeEnv, windowsLine, List.append_assoc]

theorem b64Encode_mem : ∀ (v : List Nat), (∀ b ∈ v, b < 256) →
    ∀ c ∈ b64EncodeBytes v, c ∈ b64Alphabet ∨ c = 61 := by
  intro v
  induction v using b64EncodeBytes.induct with
  | case1 => intro _ c hc; simp [b64EncodeBytes] at hc
  | case2 b1 =>
    intro h c hc
    have hb1 : b1 < 256 := h b1 (by simp)
    simp only [b64EncodeBytes, List.mem_cons, List.not_mem_nil, or_false] at hc
    rcases hc with rfl | rfl | rfl | rfl
    · exact Or.inl (b64Char_mem (by omega))
    · exact Or.inl (b64Char_mem (by omega))
    · exact Or.inr rfl
    · exact Or.inr rfl
  | case3 b1 b2 =>
    intro h c hc
    have hb1 : b1 < 256 := h b1 (by simp)
    have hb2 : b2 < 256 := h b2 (by simp)
    simp only [b64EncodeBytes, List.mem_cons, List.not_mem_nil, or_false] at hc
    rcases hc with rfl | rfl | rfl | rfl
    · exact Or.inl (b64Char_mem (by omega))
    · exact Or.inl (b64Char_mem (by omega))
    · exact Or.inl (b64Char_mem (by omega))
    · exact Or.inr rfl
  | case4 b1 b2 b3 rest ih =>
    intro h c hc
    have hb1 : b1 < 256 := h b1 (by simp)
    have hb2 : b2 < 256 := h b2 (by simp)
    have hb3 : b3 < 256 := h b3 (by simp)
    simp only [b64EncodeBytes, List.mem_cons] at hc
    rcases hc with rfl | rfl | rfl | rfl | hmem
    · exact Or.inl (b64Char_mem (by omega))
    · exact Or.inl (b64Char_mem (by omega))
    · exact Or.inl (b64Char_mem (by omega))
    · exact Or.inl (b64Char_mem (by omega))
    · exact ih (fun b hb => h b (by simp [hb])) c hmem

theorem b64Alphabet_excludes : ∀ c ∈ b64Alphabet,
    c ≠ 10 ∧ c ≠ 32 ∧ c ≠ 39 ∧ c ≠ 34 ∧ c ≠ 36 := by decide

/-- An encoded value contains none of the parser's delimiter bytes. -/
theorem b64Encode_safe (v : List Nat) (h : ∀ b ∈ v, b < 256) :
    ∀ c ∈ b64EncodeBytes v, c ≠ 10 ∧ c ≠ 32 ∧ c ≠ 39 := by
  intro c hc
  rcases b64Encode_mem v h c hc with hmem | rfl
  · have := b64Alphabet_excludes c hmem
    exact ⟨this.1, this.2.1, this.2.2.1⟩
  · exact ⟨by omega, by omega, by omega⟩

theorem stripLit_head_ne {p c : Nat} (ps cs : List Nat) (h : p ≠ c) :
    stripLit (p :: ps) (c :: cs) = none := by
  simp [stripLit, h]

theorem parseLinePosix_posixLine (key enc : List Nat) (hk : 61 ∉ key)
    (henc : ∀ c ∈ enc, c ≠ 32) :
    parseLinePosix (posixLine key enc) = some (key, b64DecodeBytes enc) := by
  have htake1 : (key ++ (s2b "=\"$(echo " ++ (enc ++ s2b " | base64 -d)\""))).takeWhile
      (fun c => c != 61) = key := by
    rw [show (s2b "=\"$(echo " ++ (enc ++ s2b " | base64 -d)\"")) =
        61 :: (s2b "\"$(echo " ++ (enc ++ s2b " | base64 -d)\"")) from rfl]
    exact takeWhile_append_eq key 61 _
      (fun a ha => by
        have : a ≠ 61 := fun h => hk (h ▸ ha)
        simp [this])
      (by simp)
  have htake2 : (enc ++ s2b " | base64 -d)\"").takeWhile (fun c => c != 32) = enc := by
    rw [show (s2b " | base64 -d)\"" : List Nat) = 32 :: s2b "| base64 -d)\"" from rfl]
    exact takeWhile_append_eq enc 32 _ (fun a ha => by simp [henc a ha]) (by simp)
  unfold parseLinePosix posixLine
  simp only [List.append_assoc]
  simp only [stripLit_self, htake1, drop_length_append, htake2]
  simp

theorem parseLinePosix_windowsLine (key enc : List Nat) :
    parseLinePosix (windowsLine key enc) = none := by
  unfold parseLinePosix windowsLine
  simp only [List.append_assoc]
  have h0 : stripLit (s2b "export ")
      (s2b "$Env:" ++ (key ++
        (s2b " = \"$([Text.Encoding]::Utf8.GetString([Convert]::FromBase64String('" ++
          (enc ++ s2b "')))\"")))) = none := by
    rw [show (s2b "export ") = 101 :: s2b "xport " from rfl,
      show (s2b "$Env:" ++ (key ++
        (s2b " = \"$([Text.Encoding]::Utf8.GetString([Convert]::FromBase64String('" ++
          (enc ++ s2b "')))\"")))) =
        36 :: (s2b "Env:" ++ (key ++
          (s2b " = \"$([Text.Encoding]::Utf8.GetString([Convert]::FromBase64String('" ++
            (enc ++ s2b "')))\"")))) from rfl]
    exact stripLit_head_ne _ _ (by omega)
  simp only [h0]

theorem parseLineWindows_windowsLine (key enc : List Nat) (hk : 32 ∉ key)
    (henc : ∀ c ∈ enc, c ≠ 39) :
    parseLineWindows (windowsLine key enc) = some (key, b64DecodeBytes enc) := by
  have htake1 : (key ++
      (s2b " = \"$([Text.Encoding]::Utf8.GetString([Convert]::FromBase64String('" ++
        (enc ++ s2b "')))\""))).takeWhile (fun c => c != 32) = key := by
    rw [show (s2b " = \"$([Text.Encoding]::Utf8.GetString([Convert]::FromBase64String('" ++
        (enc ++ s2b "')))\"")) =
        32 :: (s2b "= \"$([Text.Encoding]::Utf8.GetString([Convert]::FromBase64String('" ++
          (enc ++ s2b "')))\"")) from rfl]
    exact takeWhile_append_eq key 32 _
      (fun a ha => by
        have : a ≠ 32 := fun h => hk (h ▸ ha)
        simp [this])
      (by simp)
  have htake2 : (enc ++ s2b "')))\"").takeWhile (fun c => c != 39) = enc := by
    rw [show (s2b "')))\"" : List Nat) = 39 :: s2b ")))\"" from rfl]
    exact takeWhile_append_eq enc 39 _ (fun a ha => by simp [henc a ha]) (by simp)
  unfold parseLineWindows windowsLine
  simp only [List.append_assoc]
  simp only [stripLit_self, htake1, drop_length_append, htake2]
  simp

theorem parseLine_posixLine (key enc : List Nat) (hk : 61 ∉ key)
    (henc : ∀ c ∈ enc, c ≠ 32) :
    parseLine (posixLine key enc) = some (key, b64DecodeBytes enc) := by
  unfold parseLine
  rw [parseLinePosix_posixLine key enc hk henc]

theorem parseLine_windowsLine (key enc : List Nat) (hk : 32 ∉ key)
    (henc : ∀ c ∈ enc, c ≠ 39) :
    parseLine (windowsLine key enc) = some (key, b64DecodeBytes enc) := by
  unfold parseLine
  rw [parseLinePosix_windowsLine key enc, parseLineWindows_windowsLine key enc hk henc]

theorem parseLine_nil : parseLine [] = none := by rfl

theorem posixLine_no_nl (key enc : List Nat) (hk : 10 ∉ key)
    (henc : ∀ c ∈ enc, c ≠ 10) : 10 ∉ posixLine key enc := by
  unfold posixLine
  intro hmem
  simp only [List.mem_append] at hmem
  rcases hmem with (((h | h) | h) | h) | h
  · exact absurd h (by decide)
  · exact hk h
  · exact absurd h (by decide)
  · exact henc 10 h rfl
  · exact absurd h (by decide)

theorem windowsLine_no_nl (key enc : List Nat) (hk : 10 ∉ key)
    (henc : ∀ c ∈ enc, c ≠ 10) : 10 ∉ windowsLine key enc := by
  unfold windowsLine
  intro hmem
  simp only [List.mem_append] at hmem
  rcases hmem with (((h | h) | h) | h) | h
  · exact absurd h (by decide)
  · exact hk h
  · exact absurd h (by decide)
  · exact henc 10 h rfl
  · exact absurd h (by decide)

theorem parseEnviron_flatten (body : List Nat × List Nat → List Nat) :
    ∀ items : List (List Nat × List Nat),
      (∀ kv ∈ items, 10 ∉ body kv ∧ parseLine (body kv) = some kv) →
      parseEnviron ((items.map (fun kv => body kv ++ [10])).flatten) = items := by
  intro items
  induction items with
  | nil =>
    intro _
    simp [parseEnviron, splitNL, parseLine_nil]
  | cons kv rest ih =>
    intro h
    obtain ⟨hnl, hparse⟩ := h kv (by simp)
    have hrest := ih (fun x hx => h x (by simp [hx]))
    simp only [List.map_cons, List.flatten_cons]
    have hshape : (body kv ++ [10]) ++ (rest.map (fun kv => body kv ++ [10])).flatten =
        body kv ++ 10 :: (rest.map (fun kv => body kv ++ [10])).flatten := by
      simp
    rw [hshape]
    unfold parseEnviron
    rw [splitNL_append _ _ hnl]
    simp only [List.filterMap_cons, hparse]
    rw [show ((splitNL ((rest.map (fun kv => body kv ++ [10])).flatten)).filterMap parseLine) =
        parseEnviron ((rest.map (fun kv => body kv ++ [10])).flatten) from rfl, hrest]

theorem lookupEnv_cons_self (k v : List Nat) (rest : EnvMap) :
    lookupEnv k ((k, v) :: rest) = v := by
  unfold lookupEnv
  rw [List.find?_cons_of_pos _ (by simp)]
  rfl

theorem lookupEnv_cons_ne (k : List Nat) (p : List Nat × List Nat) (rest : EnvMap)
    (h : p.1 ≠ k) : lookupEnv k (p :: rest) = lookupEnv k rest := by
  unfold lookupEnv
  rw [List.find?_cons_of_neg _ (by simp [h])]

theorem keys_map_lookup : ∀ (M : EnvMap), (M.map Prod.fst).Nodup →
    (M.map Prod.fst).map (fun k => (k, lookupEnv k M)) = M := by
  intro M
  induction M with
  | nil => intro _; rfl
  | cons p rest ih =>
    intro hnd
    simp only [List.map_cons] at hnd ⊢
    have hnotin : p.1 ∉ rest.map Prod.fst := (List.nodup_cons.mp hnd).1
    have hnd' : (rest.map Prod.fst).Nodup := (List.nodup_cons.mp hnd).2
    have hhead : lookupEnv p.1 (p :: rest) = p.2 := by
      rw [show p = (p.1, p.2) from rfl]
      exact lookupEnv_cons_self p.1 p.2 rest
    rw [hhead]
    have htail : (rest.map Prod.fst).map (fun k => (k, lookupEnv k (p :: rest))) =
        (rest.map Prod.fst).map (fun k => (k, lookupEnv k rest)) := by
      apply List.map_congr_left
      intro k hk
      rw [lookupEnv_cons_ne k p rest (fun h => hnotin (h ▸ hk))]
    rw [htail, ih hnd']

theorem lookupEnv_mem : ∀ (M : EnvMap) (k : List Nat), k ∈ M.map Prod.fst →
    (k, lookupEnv k M) ∈ M := by
  intro M
  induction M with
  | nil => intro k h; simp at h
  | cons p rest ih =>
    intro k h
    by_cases hpk : p.1 = k
    · subst hpk
      have : lookupEnv p.1 (p :: rest) = p.2 := by
        rw [show p = (p.1, p.2) from rfl]
        exact lookupEnv_cons_self p.1 p.2 rest
      rw [this]
      exact List.mem_cons_self _ _
    · have hk' : k ∈ rest.map Prod.fst := by
        simp only [List.map_cons, List.mem_cons] at h
        exact h.resolve_left (fun hh => hpk hh.symm)
      rw [lookupEnv_cons_ne k p rest hpk]
      exact List.mem_cons_of_mem _ (ih k hk')

theorem lookupEnv_perm {M1 M2 : EnvMap} (h : M1.Perm M2) :
    (M1.map Prod.fst).Nodup → ∀ k, lookupEnv k M1 = lookupEnv k M2 := by
  induction h with
  | nil => intro _ _; rfl
  | cons p h12 ih =>
    intro hnd k
    rw [List.map_cons, List.nodup_cons] at hnd
    by_cases hpk : p.1 = k
    · subst hpk
      rw [show p = (p.1, p.2) from rfl, lookupEnv_cons_self, lookupEnv_cons_self]
    · rw [lookupEnv_cons_ne k p _ hpk, lookupEnv_cons_ne k p _ hpk]
      exact ih hnd.2 k
  | swap x y l =>
    intro hnd k
    rw [List.map_cons, List.map_cons, List.nodup_cons] at hnd
    have hyx : y.1 ≠ x.1 := fun h => hnd.1 (List.mem_cons.mpr (Or.inl h))
    by_cases hyk : y.1 = k
    · subst hyk
      rw [show y = (y.1, y.2) from rfl, lookupEnv_cons_self,
        lookupEnv_cons_ne y.1 x _ (fun h => hyx h.symm)]
      rw [show y = (y.1, y.2) from rfl, lookupEnv_cons_self]
    · by_cases hxk : x.1 = k
      · subst hxk
        rw [lookupEnv_cons_ne x.1 y _ hyk,
          show x = (x.1, x.2) from rfl, lookupEnv_cons_self, lookupEnv_cons_self]
      · rw [lookupEnv_cons_ne k y _ hyk, lookupEnv_cons_ne k x _ hxk,
          lookupEnv_cons_ne k x _ hxk, lookupEnv_cons_ne k y _ hyk]
  | trans h1 h2 ih1 ih2 =>
    intro hnd k
    rw [ih1 hnd k, ih2 ((h1.map Prod.fst).nodup hnd) k]

theorem sortedKeys_sorted (M : EnvMap) : List.Sorted bLE (sortedKeys M) :=
  List.sorted_insertionSort bLE _

theorem sortedKeys_perm (M : EnvMap) : (sortedKeys M).Perm (M.map Prod.fst) :=
  List.perm_insertionSort bLE _

theorem sortedKeys_eq_of_perm {M1 M2 : EnvMap} (h : M1.Perm M2) :
    sortedKeys M1 = sortedKeys M2 :=
  List.eq_of_perm_of_sorted
    ((sortedKeys_perm M1).trans ((h.map Prod.fst).trans (sortedKeys_perm M2).symm))
    (sortedKeys_sorted M1) (sortedKeys_sorted M2)

theorem writeEnviron_perm (w os : List Nat) {M1 M2 : EnvMap} (h : M1.Perm M2)
    (hnd : (M1.map Prod.fst).Nodup) : writeEnviron w os M1 = writeEnviron w os M2 := by
  rw [writeEnviron_eq, writeEnviron_eq, sortedKeys_eq_of_perm h]
  have : (sortedKeys M2).map (fun k => writeEnv [] os k (lookupEnv k M1)) =
      (sortedKeys M2).map (fun k => writeEnv [] os k (lookupEnv k M2)) := by
    apply List.map_congr_left
    intro k _
    rw [lookupEnv_perm h hnd k]
  rw [this]

theorem sortEntries_perm (M : EnvMap) (hnd : (M.map Prod.fst).Nodup) :
    (sortEntries M).Perm M := by
  unfold sortEntries
  have h1 := (sortedKeys_perm M).map (fun k => (k, lookupEnv k M))
  rw [keys_map_lookup M hnd] at h1
  exact h1

theorem sortEntries_mem {M : EnvMap} {kv : List Nat × List Nat} (h : kv ∈ sortEntries M) :
    kv.1 ∈ M.map Prod.fst ∧ kv = (kv.1, lookupEnv kv.1 M) := by
  unfold sortEntries at h
  obtain ⟨k, hk, hkv⟩ := List.mem_map.mp h
  have hk' : k ∈ M.map Prod.fst := (sortedKeys_perm M).mem_iff.mp hk
  subst hkv
  exact ⟨hk', rfl⟩

theorem parseEnviron_writeEnviron (os : List Nat) (M : EnvMap)
    (hkeys : ∀ k ∈ M.map Prod.fst, 10 ∉ k ∧ 61 ∉ k ∧ 32 ∉ k)
    (hvals : ∀ kv ∈ M, ∀ b ∈ kv.2, b < 256) :
    parseEnviron (writeEnviron [] os M) = sortEntries M := by
  have hside : ∀ kv ∈ sortEntries M,
      (10 ∉ kv.1 ∧ 61 ∉ kv.1 ∧ 32 ∉ kv.1) ∧ (∀ b ∈ kv.2, b < 256) := by
    intro kv hkv
    obtain ⟨hk, hkv'⟩ := sortEntries_mem hkv
    refine ⟨hkeys kv.1 hk, ?_⟩
    have : (kv.1, lookupEnv kv.1 M) ∈ M := lookupEnv_mem M kv.1 hk
    intro b hb
    exact hvals _ this b (by rw [← hkv'] at this ⊢; exact hb)
  by_cases hos : os = s2b "windows"
  · subst hos
    rw [writeEnviron_eq]
    simp only [List.nil_append]
    have hmap : (sortedKeys M).map (fun k => writeEnv [] (s2b "windows") k (lookupEnv k M)) =
        (sortEntries M).map (fun kv => windowsLine kv.1 (b64EncodeBytes kv.2) ++ [10]) := by
      unfold sortEntries
      rw [List.map_map]
      apply List.map_congr_left
      intro k _
      simp only [Function.comp]
      exact writeEnv_windows k (lookupEnv k M)
    rw [hmap]
    apply parseEnviron_flatten
    intro kv hkv
    obtain ⟨⟨h10, _, h32⟩, hv⟩ := hside kv hkv
    have hsafe := b64Encode_safe kv.2 hv
    refine ⟨windowsLine_no_nl kv.1 _ h10 (fun c hc => (hsafe c hc).1), ?_⟩
    have hp := parseLine_windowsLine kv.1 _ h32 (fun c hc => (hsafe c hc).2.2)
    rw [b64_roundtrip kv.2 hv] at hp
    simpa using hp
  · rw [writeEnviron_eq]
    simp only [List.nil_append]
    have hmap : (sortedKeys M).map (fun k => writeEnv [] os k (lookupEnv k M)) =
        (sortEntries M).map (fun kv => posixLine kv.1 (b64EncodeBytes kv.2) ++ [10]) := by
      unfold sortEntries
      rw [List.map_map]
      apply List.map_congr_left
      intro k _
      simp only [Function.comp]
      exact writeEnv_posix os k (lookupEnv k M) hos
    rw [hmap]
    apply parseEnviron_flatten
    intro kv hkv
    obtain ⟨⟨h10, h61, _⟩, hv⟩ := hside kv hkv
    have hsafe := b64Encode_safe kv.2 hv
    refine ⟨posixLine_no_nl kv.1 _ h10 (fun c hc => (hsafe c hc).1), ?_⟩
    have hp := parseLine_posixLine kv.1 _ h61 (fun c hc => (hsafe c hc).2.1)
    rw [b64_roundtrip kv.2 hv] at hp
    simpa using hp

/-! ## Engine data model and operations (`engine/engine.go`) -/

/-- `engine.File`. -/
structure File where
  path : List Nat
  mode : Nat
  isDir : Bool
  data : List Nat
deriving DecidableEq

/-- `engine.Step` (the fields `Run` reads). -/
structure Step where
  name : List Nat
  workingDir : List Nat
  envs : EnvMap
  secrets : List Secret
  files : List File

/-- `engine.Server`. -/
structure Server where
  hostname : List Nat
  username : List Nat
  password : List Nat
  sshKey : List Nat
deriving DecidableEq

/-- `engine.Spec` (the fields `Setup`, `Run` and `Destroy` read). -/
structure Spec where
  os : List Nat
  root : List Nat
  server : Server
  files : List File

/-- `engine.State`. -/
structure State where
  exitCode : Int
  exited : Bool
  oomKilled : Bool
deriving DecidableEq

/-- Outcome of `session.Run`: `none` means success; `exitError` is an
`*ssh.ExitError` carrying the remote command's exit status; `other` is
any other (transport/launch) error. -/
inductive SSHError where
  | exitError (status : Int)
  | other (msg : List Nat)
deriving DecidableEq

/-- `engine.Run`, completion path (engine.go lines 545-559): the `State`
built from the completed session's outcome.  `Exited` is set `true`
unconditionally; a non-nil error sets exit code 255; an `*ssh.ExitError`
then overrides it with the remote exit status. -/
def runState (err : Option SSHError) : State :=
  let state : State := { exitCode := 0, exited := true, oomKilled := false }
  let state := if err.isSome then { state with exitCode := 255 } else state
  match err with
  | some (.exitError status) => { state with exitCode := status }
  | _ => state

/-- `engine.Run` returns the mapped state together with the session error
itself (`return state, err`). -/
def runResult (err : Option SSHError) : State × Option SSHError :=
  (runState err, err)

/-- The bytes `engine.Run` uploads for one step file (engine.go lines
496-502): a fresh buffer receives the workdir line, the secret exports,
the environment exports, and then the file's payload. -/
def runUploadBytes (os : List Nat) (step : Step) (file : File) : List Nat :=
  writeEnviron (writeSecrets (writeWorkdir [] step.workingDir) os step.secrets) os step.envs
    ++ file.data

/-- A remote filesystem operation issued by `Setup` over SFTP. -/
inductive RemoteOp where
  | mkdir (path : List Nat) (mode : Nat)
  | upload (path : List Nat) (data : List Nat) (mode : Nat)
deriving DecidableEq

/-- Runs operations in order against an oracle, stopping at the first
failure; returns the operations attempted and the first error. -/
def runOps (exec : RemoteOp → Option (List Nat)) :
    List RemoteOp → List RemoteOp × Option (List Nat)
  | [] => ([], none)
  | op :: rest =>
    match exec op with
    | some e => ([op], some e)
    | none =>
      let r := runOps exec rest
      (op :: r.1, r.2)

/-- `Setup`'s first loop (engine.go lines 392-404): mkdir for each
`IsDir` file, in order, aborting on the first error. -/
def setupDirs (exec : RemoteOp → Option (List Nat)) :
    List File → List RemoteOp × Option (List Nat)
  | [] => ([], none)
  | f :: rest =>
    if f.isDir = false then setupDirs exec rest
    else
      match exec (.mkdir f.path f.mode) with
      | some e => ([.mkdir f.path f.mode], some e)
      | none =>
        let r := setupDirs exec rest
        (.mkdir f.path f.mode :: r.1, r.2)

/-- `Setup`'s second loop (engine.go lines 409-420): upload for each
non-`IsDir` file, in order, aborting on the first error. -/
def setupUploads (exec : RemoteOp → Option (List Nat)) :
    List File → List RemoteOp × Option (List Nat)
  | [] => ([], none)
  | f :: rest =>
    if f.isDir = true then setupUploads exec rest
    else
      match exec (.upload f.path f.data f.mode) with
      | some e => ([.upload f.path f.data f.mode], some e)
      | none =>
        let r := setupUploads exec rest
        (.upload f.path f.data f.mode :: r.1, r.2)

/-- `engine.Setup` after the connection is established (engine.go lines
380-422): root mkdir with mode 0777, then the directory loop, then the
upload loop; the first error aborts and is returned.  The first component
records the operations actually attempted, in order. -/
def setup (exec : RemoteOp → Option (List Nat)) (spec : Spec) :
    List RemoteOp × Option (List Nat) :=
  match exec (.mkdir spec.root 0o777) with
  | some e => ([.mkdir spec.root 0o777], some e)
  | none =>
    let rd := setupDirs exec spec.files
    match rd.2 with
    | some e => (.mkdir spec.root 0o777 :: rd.1, some e)
    | none =>
      let ru := setupUploads exec spec.files
      (.mkdir spec.root 0o777 :: (rd.1 ++ ru.1), ru.2)

/-- The operation sequence `Setup` is specified to perform: the root
directory first, then every directory in `Files` order, then every
file upload in `Files` order. -/
def setupOps (spec : Spec) : List RemoteOp :=
  .mkdir spec.root 0o777 ::
    ((spec.files.filter (fun f => f.isDir)).map (fun f => .mkdir f.path f.mode) ++
      (spec.files.filter (fun f => !f.isDir)).map (fun f => .upload f.path f.data f.mode))

/-- `engine.Destroy` after the connection is established (engine.go lines
443-470): try `ftp.RemoveDirectory(spec.Root)`; on success return `nil`;
otherwise open a session and run `removeCommand(os, root)`, returning the
session error (`return err`). The oracles give each remote call's result. -/
def destroy (os root : List Nat)
    (removeDirResult : Option (List Nat))
    (newSessionResult : Option (List Nat))
    (sessionRun : List Nat → Option (List Nat)) : Option (List Nat) :=
  match removeDirResult with
  | none => none
  | some _ =>
    match newSessionResult with
    | some e => some e
    | none => sessionRun (removeCommand os root)

/-! ## Compiler (`engine/compiler/compiler.go`) -/

/-- `manifest.Secretable`: a literal value or a named secret reference. -/
structure Secretable where
  value : List Nat
  secret : List Nat
deriving DecidableEq

/-- The pipeline's `server` block. -/
structure PipelineServer where
  host : Secretable
  user : Secretable
  password : Secretable
  sshKey : Secretable
deriving DecidableEq

/-- Result of the combined secret provider's `Find` call.  `secret.Combine`
(runner-go) returns `nil, err` when a provider errors, so the fault case
carries no secret data. -/
inductive FindResult where
  | fault (msg : List Nat)
  | notFound
  | found (data : List Nat)
deriving DecidableEq

/-- `Compiler.findSecret` (compiler.go lines 307-331): an empty name short
circuits; the provider error is discarded (`found, _ :=`); a nil result
yields `ok=false`; otherwise the secret's data with `ok=true`. -/
def findSecret (find : List Nat → FindResult) (name : List Nat) : Option (List Nat) :=
  if name = [] then none
  else
    match find name with
    | .fault _ => none
    | .notFound => none
    | .found data => some data

/-- One server field of `Compile` (lines 52-75): the literal value, then
`maybe load ... from secret` — overridden only when `findSecret` reports
`ok`. -/
def resolveField (find : List Nat → FindResult) (f : Secretable) : List Nat :=
  match findSecret find f.secret with
  | some s => s
  | none => f.value

/-- The hostname port default (compiler.go lines 77-80): append `":22"`
when the hostname contains no `':'` byte (58). -/
def compileHostname (h : List Nat) : List Nat :=
  if h.contains 58 then h else h ++ s2b ":22"

/-- The `engine.Server` produced by `Compile` (lines 52-80): the four
fields resolved literal-then-secret, then the hostname port default. -/
def compileServer (find : List Nat → FindResult) (ps : PipelineServer) : Server :=
  let server : Server :=
    { hostname := resolveField find ps.host
      username := resolveField find ps.user
      password := resolveField find ps.password
      sshKey := resolveField find ps.sshKey }
  { server with hostname := compileHostname server.hostname }

/-- `engine.RunPolicy`. -/
inductive RunPolicy where
  | runAlways
  | runOnSuccess
  | runOnFailure
  | runNever
deriving DecidableEq

/-- `drone.Build` (the fields `Compile` passes to `When.Match`). -/
structure Build where
  action : List Nat
  cron : List Nat
  ref : List Nat
  deploy : List Nat
  event : List Nat
  target : List Nat

/-- `drone.Repo` (the field `Compile` passes to `When.Match`). -/
structure Repo where
  slug : List Nat

/-- `drone.System` (the field `Compile` passes to `When.Match`). -/
structure SystemInfo where
  host : List Nat

/-- `manifest.Match`: the tuple built at compiler.go lines 256-264. -/
structure MatchArgs where
  action : List Nat
  cron : List Nat
  ref : List Nat
  repo : List Nat
  instanceHost : List Nat
  target : List Nat
  event : List Nat
  branch : List Nat
deriving DecidableEq

/-- The `manifest.Match` value built from the build/repo/system metadata
(compiler.go lines 256-264). -/
def matchArgsOf (build : Build) (repo : Repo) (sys : SystemInfo) : MatchArgs :=
  { action := build.action
    cron := build.cron
    ref := build.ref
    repo := repo.slug
    instanceHost := sys.host
    target := build.deploy
    event := build.event
    branch := build.target }

/-- A source pipeline step, with the three predicates the run-policy logic
consults. `isRunAlways`, `isRunOnFailure` and `When.Match` are defined
outside these sources, so they appear as oracle fields. -/
structure SourceStep where
  runAlways : Bool
  runOnFailure : Bool
  whenMatch : MatchArgs → Bool

/-- The run policy `Compile` assigns to a user step (lines 232, 245-267):
`RunOnSuccess` initially; overridden to `RunAlways` or `RunOnFailure`;
finally forced to `RunNever` when the step's `when` does not match. -/
def stepRunPolicy (src : SourceStep) (build : Build) (repo : Repo) (sys : SystemInfo) :
    RunPolicy :=
  let policy := RunPolicy.runOnSuccess
  let policy :=
    if src.runAlways then RunPolicy.runAlways
    else if src.runOnFailure then RunPolicy.runOnFailure
    else policy
  if src.whenMatch (matchArgsOf build repo sys) then policy else RunPolicy.runNever

/-! ## Resource linter (`resource` package) -/

/-- `resource.Step` (the field `lint` reads). -/
structure ResStep where
  name : List Nat
deriving DecidableEq

/-- `resource.Pipeline` (the fields `lint` reads). -/
structure ResPipeline where
  server : PipelineServer
  steps : List ResStep
deriving DecidableEq

/-- The step loop of `lint` with its `names` set accumulator: rejects an
empty name, then a duplicate name. -/
def lintSteps (names : List (List Nat)) : List ResStep → Option (List Nat)
  | [] => none
  | st :: rest =>
    if st.name = [] then some (s2b "Linter: invalid or missing step name")
    else if names.contains st.name then some (s2b "Linter: duplicate step name")
    else lintSteps (st.name :: names) rest

/-- `resource.lint`: server host, user, password-or-ssh-key checks, then
the step-name checks; `none` means the pipeline passes. -/
def lint (p : ResPipeline) : Option (List Nat) :=
  if p.server.host.value = [] ∧ p.server.host.secret = [] then
    some (s2b "Linter: invalid or missing server host")
  else if p.server.user.value = [] ∧ p.server.user.secret = [] then
    some (s2b "Linter: invalid or missing server user")
  else if p.server.password.value = [] ∧ p.server.password.secret = [] ∧
      p.server.sshKey.value = [] ∧ p.server.sshKey.secret = [] then
    some (s2b "Linter: invalid or missing server password or ssh_key")
  else lintSteps [] p.steps

/-- A raw manifest resource: kind, type, and the outcome of
`yaml.Unmarshal` on its data (the filled pipeline and an optional error). -/
structure RawResource where
  kind : List Nat
  typ : List Nat
  unmarshal : ResPipeline × Option (List Nat)

/-- Modelled from the spec: the resource package's `Kind` constant (its
defining file is not among the sources; the spec fixes `kind: pipeline`). -/
def resourceKind : List Nat := s2b "pipeline"

/-- Modelled from the spec: the resource package's `Type` constant (its
defining file is not among the sources; the spec fixes `type: ssh`). -/
def resourceType : List Nat := s2b "ssh"

/-- `resource.match`. -/
def resourceMatch (r : RawResource) : Bool :=
  r.kind == resourceKind && r.typ == resourceType

/-- `resource.parse`: skip non-matching resources; surface the unmarshal
error; otherwise return the pipeline together with `lint`'s verdict. -/
def parse (r : RawResource) : Option ResPipeline × Bool × Option (List Nat) :=
  if resourceMatch r = false then (none, false, none)
  else
    match r.unmarshal with
    | (out, some e) => (some out, true, some e)
    | (out, none) => (some out, true, lint out)

/-! ## Supporting lemmas for `Setup` and the linter -/

theorem setupDirs_eq (exec : RemoteOp → Option (List Nat)) :
    ∀ files : List File,
      setupDirs exec files =
        runOps exec
          ((files.filter (fun f => f.isDir)).map (fun f => RemoteOp.mkdir f.path f.mode)) := by
  intro files
  induction files with
  | nil => rfl
  | cons f rest ih =>
    cases hdir : f.isDir with
    | false => simp [setupDirs, hdir, List.filter_cons, ih]
    | true =>
      cases hexec : exec (RemoteOp.mkdir f.path f.mode) <;>
        simp [setupDirs, hdir, List.filter_cons, runOps, hexec, ih]

theorem setupUploads_eq (exec : RemoteOp → Option (List Nat)) :
    ∀ files : List File,
      setupUploads exec files =
        runOps exec
          ((files.filter (fun f => !f.isDir)).map
            (fun f => RemoteOp.upload f.path f.data f.mode)) := by
  intro files
  induction files with
  | nil => rfl
  | cons f rest ih =>
    cases hdir : f.isDir with
    | true => simp [setupUploads, hdir, List.filter_cons, ih]
    | false =>
      cases hexec : exec (RemoteOp.upload f.path f.data f.mode) <;>
        simp [setupUploads, hdir, List.filter_cons, runOps, hexec, ih]

theorem runOps_append (exec : RemoteOp → Option (List Nat)) :
    ∀ l1 l2 : List RemoteOp,
      runOps exec (l1 ++ l2) =
        if (runOps exec l1).2 = none
        then ((runOps exec l1).1 ++ (runOps exec l2).1, (runOps exec l2).2)
        else runOps exec l1 := by
  intro l1
  induction l1 with
  | nil => intro l2; simp [runOps]
  | cons op rest ih =>
    intro l2
    cases hexec : exec op with
    | some e => simp [runOps, hexec]
    | none =>
      simp only [List.cons_append, runOps, hexec]
      rw [show rest.append l2 = rest ++ l2 from rfl, ih l2]
      cases hr : (runOps exec rest).2 <;> simp [hr]

theorem setup_eq (exec : RemoteOp → Option (List Nat)) (spec : Spec) :
    setup exec spec = runOps exec (setupOps spec) := by
  unfold setup setupOps
  cases hexec : exec (RemoteOp.mkdir spec.root 0o777) with
  | some e => simp [runOps, hexec]
  | none =>
    simp only [runOps, hexec]
    rw [setupDirs_eq, setupUploads_eq, runOps_append]
    cases hr : (runOps exec
        ((spec.files.filter (fun f => f.isDir)).map
          (fun f => RemoteOp.mkdir f.path f.mode))).2 <;> simp [hr]

theorem lintSteps_none_iff : ∀ (steps : List ResStep) (names : List (List Nat)),
    lintSteps names steps = none ↔
      ((∀ st ∈ steps, st.name ≠ []) ∧ (steps.map ResStep.name).Nodup ∧
        ∀ st ∈ steps, st.name ∉ names) := by
  intro steps
  induction steps with
  | nil => intro names; simp [lintSteps]
  | cons st rest ih =>
    intro names
    by_cases h1 : st.name = []
    · exact iff_of_false (by simp [lintSteps, h1]) (fun h => h.1 st (by simp) h1)
    · by_cases h2 : names.contains st.name = true
      · have hmem : st.name ∈ names := by simpa using h2
        refine iff_of_false (by simp [lintSteps, h1, hmem]) (fun h => ?_)
        exact h.2.2 st (by simp) hmem
      · have hnmem : st.name ∉ names := by simpa using h2
        have hstep : lintSteps names (st :: rest) = lintSteps (st.name :: names) rest := by
          simp [lintSteps, h1, hnmem]
        rw [hstep, ih (st.name :: names)]
        constructor
        · rintro ⟨hne, hnd, hnin⟩
          refine ⟨?_, ?_, ?_⟩
          · intro x hx
            rcases List.mem_cons.mp hx with rfl | hx'
            · exact h1
            · exact hne x hx'
          · simp only [List.map_cons, List.nodup_cons]
            refine ⟨?_, hnd⟩
            intro hmem
            obtain ⟨x, hx, hxname⟩ := List.mem_map.mp hmem
            exact hnin x hx (by simp [hxname])
          · intro x hx
            rcases List.mem_cons.mp hx with rfl | hx'
            · simpa using h2
            · intro hmem
              exact hnin x hx' (List.mem_cons_of_mem _ hmem)
        · rintro ⟨hne, hnd, hnin⟩
          simp only [List.map_cons, List.nodup_cons] at hnd
          refine ⟨?_, hnd.2, ?_⟩
          · intro x hx
            exact hne x (List.mem_cons_of_mem _ hx)
          · intro x hx
            intro hmem
            rcases List.mem_cons.mp hmem with hxn | hxn
            · exact hnd.1 (hxn ▸ List.mem_map_of_mem ResStep.name hx)
            · exact hnin x (List.mem_cons_of_mem _ hx) hxn

/-! ## Claim theorems -/

/-- C1: when `Engine.Run`'s remote session completes (not cancelled), the
returned `State` has exit code 0 (and `Exited=true`) if the session
returned no error; exit code 255 with `Exited=true` if it returned an
error that is not an ssh exit-status error, the error also being returned
to the caller; and the remote command's exit status if it returned an ssh
exit-status error. -/
theorem run_session_outcome_state (err : Option SSHError) :
    (err = none →
      runResult err = ({ exitCode := 0, exited := true, oomKilled := false }, none)) ∧
    (∀ msg, err = some (.other msg) →
      (runResult err).1.exitCode = 255 ∧ (runResult err).1.exited = true ∧
        (runResult err).2 = some (.other msg)) ∧
    (∀ status, err = some (.exitError status) →
      (runResult err).1.exitCode = status ∧ (runResult err).1.exited = true ∧
        (runResult err).2 = some (.exitError status)) := by
  refine ⟨?_, ?_, ?_⟩
  · rintro rfl; rfl
  · rintro msg rfl; exact ⟨rfl, rfl, rfl⟩
  · rintro status rfl; exact ⟨rfl, rfl, rfl⟩

/-- Witness for C1: a remote exit-status error with status 42. -/
theorem run_session_outcome_state_witness :
    (runResult (some (.exitError 42))).1.exitCode = 42 ∧
      (runResult (some (.exitError 42))).1.exited = true ∧
      (runResult (some (.exitError 42))).2 = some (.exitError 42) :=
  (run_session_outcome_state (some (.exitError 42))).2.2 42 rfl

/-- C2: the bytes `Engine.Run` uploads for a step file are exactly, in
order: the `cd <working_dir>` line, one export line per step secret
(keyed by the secret's env name, value from its data), the export lines
for the step's environment map, and the file's original payload. -/
theorem run_upload_bytes_layout (os : List Nat) (step : Step) (file : File)
    (_hf : file ∈ step.files) :
    runUploadBytes os step file =
      (s2b "cd " ++ step.workingDir ++ [10]) ++
        (step.secrets.map (fun s => writeEnv [] os s.env s.data)).flatten ++
        writeEnviron [] os step.envs ++ file.data := by
  unfold runUploadBytes
  simp [writeEnviron_eq, writeSecrets_eq, writeWorkdir, List.append_assoc]

/-- Witness for C2: a concrete step file. -/
theorem run_upload_bytes_layout_witness :
    runUploadBytes (s2b "linux")
        ⟨s2b "build", s2b "/tmp/src", [], [], [⟨s2b "/tmp/s.sh", 448, false, s2b "echo hi"⟩]⟩
        ⟨s2b "/tmp/s.sh", 448, false, s2b "echo hi"⟩ =
      (s2b "cd " ++ s2b "/tmp/src" ++ [10]) ++
        (([] : List Secret).map (fun s => writeEnv [] (s2b "linux") s.env s.data)).flatten ++
        writeEnviron [] (s2b "linux") [] ++ s2b "echo hi" :=
  run_upload_bytes_layout _ _ _ (by simp)

/-- Counterexample to C3 as stated: two different environment maps (their
key sets differ; both are valid Go maps, i.e. have distinct keys) produce
byte-identical `writeEnviron` output, so no parser of the emitted export
lines can recover `M` for every map `M`.  The first map's single key
contains bytes (`"`, `=`, newline, space, `$`) that let one export line
forge the boundary of another. -/
theorem write_environ_not_injective :
    writeEnviron [] (s2b "linux")
        [(s2b "A=\"$(echo QQ== | base64 -d)\"\nexport B", [])] =
      writeEnviron [] (s2b "linux") [(s2b "A", s2b "A"), (s2b "B", [])] ∧
    [(s2b "A=\"$(echo QQ== | base64 -d)\"\nexport B", ([] : List Nat))].map Prod.fst ≠
      [(s2b "A", s2b "A"), (s2b "B", ([] : List Nat))].map Prod.fst ∧
    ([(s2b "A=\"$(echo QQ== | base64 -d)\"\nexport B", ([] : List Nat))].map Prod.fst).Nodup ∧
    (([(s2b "A", s2b "A"), (s2b "B", ([] : List Nat))]).map Prod.fst).Nodup := by
  refine ⟨by decide, by decide, by decide, by decide⟩

/-- C3 (amended): `writeEnviron` emits exactly one export line per key of
`M`, in ascending byte-lexicographic key order; its output is
deterministic — any two association lists denoting the same map (a
permutation, keys distinct) produce identical bytes; and, provided every
key is free of the newline (10), `'='` (61) and space (32) bytes and the
values are bytes, re-parsing the emitted export lines recovers exactly
the entries of `M`. -/
theorem write_environ_sorted_deterministic_roundtrip (os : List Nat) (M M' : EnvMap)
    (hnd : (M.map Prod.fst).Nodup)
    (hkeys : ∀ k ∈ M.map Prod.fst, 10 ∉ k ∧ 61 ∉ k ∧ 32 ∉ k)
    (hvals : ∀ kv ∈ M, ∀ b ∈ kv.2, b < 256)
    (hperm : M.Perm M') :
    writeEnviron [] os M =
        ((sortedKeys M).map (fun k => writeEnv [] os k (lookupEnv k M))).flatten ∧
      List.Sorted bLE (sortedKeys M) ∧
      (sortedKeys M).Perm (M.map Prod.fst) ∧
      writeEnviron [] os M = writeEnviron [] os M' ∧
      parseEnviron (writeEnviron [] os M) = sortEntries M ∧
      (sortEntries M).Perm M := by
  refine ⟨?_, sortedKeys_sorted M, sortedKeys_perm M, ?_, ?_, sortEntries_perm M hnd⟩
  · rw [writeEnviron_eq]; rfl
  · exact writeEnviron_perm [] os hperm hnd
  · exact parseEnviron_writeEnviron os M hkeys hvals

/-- Witness for C3 (amended) at a concrete two-entry map and a permuted
copy of it. -/
theorem write_environ_sorted_deterministic_roundtrip_witness :
    writeEnviron [] (s2b "linux") [(s2b "B", s2b "2"), (s2b "A", s2b "1")] =
        writeEnviron [] (s2b "linux") [(s2b "A", s2b "1"), (s2b "B", s2b "2")] ∧
      parseEnviron (writeEnviron [] (s2b "linux") [(s2b "B", s2b "2"), (s2b "A", s2b "1")]) =
        sortEntries [(s2b "B", s2b "2"), (s2b "A", s2b "1")] :=
  have h := write_environ_sorted_deterministic_roundtrip (s2b "linux")
    [(s2b "B", s2b "2"), (s2b "A", s2b "1")] [(s2b "A", s2b "1"), (s2b "B", s2b "2")]
    (by decide) (by decide) (by decide) (by decide)
  ⟨h.2.2.2.1, h.2.2.2.2.1⟩

/-- C4: `writeEnv` emits the value base64-encoded with an inline decode at
execution time — POSIX `export KEY="$(echo <b64> | base64 -d)"`, Windows
a PowerShell `FromBase64String` expression — rather than the raw value;
the emitted payload consists only of base64-alphabet bytes and `'='`
padding (so no byte of the value can break the shell quoting), and
decoding the payload recovers the value exactly. -/
theorem write_env_base64 (os key value : List Nat) (hv : ∀ b ∈ value, b < 256) :
    (os ≠ s2b "windows" →
      writeEnv [] os key value =
        s2b "export " ++ key ++ s2b "=\"$(echo " ++ b64EncodeBytes value ++
          s2b " | base64 -d)\"" ++ [10]) ∧
    (writeEnv [] (s2b "windows") key value =
      s2b "$Env:" ++ key ++
        s2b " = \"$([Text.Encoding]::Utf8.GetString([Convert]::FromBase64String('" ++
        b64EncodeBytes value ++ s2b "')))\"" ++ [10]) ∧
    (∀ c ∈ b64EncodeBytes value, c ∈ b64Alphabet ∨ c = 61) ∧
    b64DecodeBytes (b64EncodeBytes value) = value := by
  refine ⟨?_, ?_, b64Encode_mem value hv, b64_roundtrip value hv⟩
  · intro hos
    simp [writeEnv, hos, List.append_assoc]
  · simp [writeEnv, List.append_assoc]

/-- Witness for C4 on a concrete key and value. -/
theorem write_env_base64_witness :
    writeEnv [] (s2b "linux") (s2b "TOKEN") (s2b "s3cret") =
      s2b "export " ++ s2b "TOKEN" ++ s2b "=\"$(echo " ++ b64EncodeBytes (s2b "s3cret") ++
        s2b " | base64 -d)\"" ++ [10] :=
  (write_env_base64 (s2b "linux") (s2b "TOKEN") (s2b "s3cret") (by decide)).1 (by decide)

/-- C5: after server-connection secret resolution, `Compile` appends
`":22"` to the hostname iff the resolved host string lacks a port
(formalised as the code's test: it contains no `':'` byte 58); a host
without a port yields a hostname ending in `":22"`, and a host already
carrying a port is left unchanged. -/
theorem compile_hostname_port_default (find : List Nat → FindResult) (ps : PipelineServer) :
    ((resolveField find ps.host).contains 58 = false →
      (compileServer find ps).hostname = resolveField find ps.host ++ s2b ":22" ∧
        List.IsSuffix (s2b ":22") (compileServer find ps).hostname) ∧
    ((resolveField find ps.host).contains 58 = true →
      (compileServer find ps).hostname = resolveField find ps.host) := by
  constructor
  · intro h
    have hmem : 58 ∉ resolveField find ps.host := by simpa using h
    have he : (compileServer find ps).hostname = resolveField find ps.host ++ s2b ":22" := by
      simp [compileServer, compileHostname, hmem]
    exact ⟨he, ⟨resolveField find ps.host, he.symm⟩⟩
  · intro h
    have hmem : 58 ∈ resolveField find ps.host := by simpa using h
    simp [compileServer, compileHostname, hmem]

/-- Witness for C5: a host without a colon gets `":22"` appended. -/
theorem compile_hostname_port_default_witness :
    (compileServer (fun _ => FindResult.notFound)
        ⟨⟨s2b "example.com", []⟩, ⟨s2b "root", []⟩, ⟨s2b "pw", []⟩, ⟨[], []⟩⟩).hostname =
      s2b "example.com" ++ s2b ":22" :=
  ((compile_hostname_port_default (fun _ => FindResult.notFound)
    ⟨⟨s2b "example.com", []⟩, ⟨s2b "root", []⟩, ⟨s2b "pw", []⟩, ⟨[], []⟩⟩).1 (by decide)).1

/-- C6: `Engine.Setup` (after connecting) performs exactly, in order: the
root mkdir with mode 0777, then one mkdir per `is_dir` file in `Files`
order with its declared mode, then one upload per non-`is_dir` file in
`Files` order with its declared mode; the first failing operation aborts
the sequence and its error is returned, later operations not being
attempted (`runOps` truncates at the first failure). -/
theorem setup_order_and_abort (exec : RemoteOp → Option (List Nat)) (spec : Spec) :
    setup exec spec = runOps exec (setupOps spec) :=
  setup_eq exec spec

/-- Counterexample to C7 as stated: when the SFTP removal fails and the
fallback `removeCommand` session also fails, `Destroy` returns the
session error to the caller (engine.go `return err`), so a cleanup
failure *is* propagated as an error, contrary to the claim. -/
theorem destroy_propagates_cleanup_error :
    destroy (s2b "linux") (s2b "/tmp/droneDir") (some (s2b "sftp: directory not empty"))
        none (fun _ => some (s2b "Process exited with status 1")) =
      some (s2b "Process exited with status 1") ∧
    some (s2b "Process exited with status 1") ≠ (none : Option (List Nat)) :=
  ⟨rfl, by simp⟩

/-- C7 (amended): `Destroy` first attempts the SFTP directory removal and
returns success immediately if it succeeds; otherwise it executes
`removeCommand(os, root)` (`rm -rf <root>` on POSIX, PowerShell
`Remove-Item -Recurse -Force` on Windows) in an SSH session, and a
failure of that cleanup command is logged and returned to the caller
(not suppressed). -/
theorem destroy_fallback_spec (os root e : List Nat)
    (sessionRun : List Nat → Option (List Nat)) :
    (∀ ns sr, destroy os root none ns sr = none) ∧
    destroy os root (some e) none sessionRun = sessionRun (removeCommand os root) ∧
    removeCommand (s2b "windows") root =
      s2b "powershell -noprofile -noninteractive -command \"Remove-Item " ++ root ++
        s2b " -Recurse -Force\"" ∧
    (os ≠ s2b "windows" → removeCommand os root = s2b "rm -rf " ++ root) := by
  refine ⟨fun ns sr => rfl, rfl, rfl, fun h => ?_⟩
  simp [removeCommand, h]

/-- Witness for C7 (amended) on POSIX. -/
theorem destroy_fallback_spec_witness :
    removeCommand (s2b "linux") (s2b "/tmp/d") = s2b "rm -rf " ++ s2b "/tmp/d" :=
  (destroy_fallback_spec (s2b "linux") (s2b "/tmp/d") (s2b "e") (fun _ => none)).2.2.2
    (by decide)

/-- C8: a source step whose `when` condition does not match the build
tuple (action, cron, ref, repo slug, instance host, deploy target, event,
branch) compiles to `RunPolicy = never`, and this override takes
precedence over the `always` / `on_failure` overrides (which apply only
when the condition matches). -/
theorem step_run_policy_when_unmet (src : SourceStep) (build : Build) (repo : Repo)
    (sys : SystemInfo) :
    (src.whenMatch (matchArgsOf build repo sys) = false →
      stepRunPolicy src build repo sys = RunPolicy.runNever) ∧
    (src.whenMatch (matchArgsOf build repo sys) = true →
      stepRunPolicy src build repo sys =
        (if src.runAlways then RunPolicy.runAlways
          else if src.runOnFailure then RunPolicy.runOnFailure
          else RunPolicy.runOnSuccess)) := by
  constructor <;> intro h <;> simp [stepRunPolicy, h]

/-- Witness for C8: an `always` step whose `when` does not match is still
compiled to `never`. -/
theorem step_run_policy_when_unmet_witness :
    stepRunPolicy ⟨true, true, fun _ => false⟩
        ⟨s2b "create", s2b "", s2b "refs/heads/main", s2b "", s2b "push", s2b "main"⟩
        ⟨s2b "org/repo"⟩ ⟨s2b "drone.example.com"⟩ = RunPolicy.runNever :=
  (step_run_policy_when_unmet ⟨true, true, fun _ => false⟩
    ⟨s2b "create", s2b "", s2b "refs/heads/main", s2b "", s2b "push", s2b "main"⟩
    ⟨s2b "org/repo"⟩ ⟨s2b "drone.example.com"⟩).1 rfl

/-- C9: each server connection field uses the pipeline's literal value
unless the field carries a non-empty secret name that the combined
providers resolve, in which case the secret's data replaces the literal;
an empty secret name, an unfound secret, or a provider error leaves the
literal unchanged rather than blanking it.  `compileServer` applies this
resolution to all four fields (the hostname additionally passing through
the port default). -/
theorem server_secret_resolution (find : List Nat → FindResult) (ps : PipelineServer) :
    (∀ f : Secretable, f.secret = [] → resolveField find f = f.value) ∧
    (∀ (f : Secretable) (msg : List Nat), find f.secret = .fault msg →
      resolveField find f = f.value) ∧
    (∀ f : Secretable, find f.secret = .notFound → resolveField find f = f.value) ∧
    (∀ (f : Secretable) (data : List Nat), f.secret ≠ [] → find f.secret = .found data →
      resolveField find f = data) ∧
    (compileServer find ps).username = resolveField find ps.user ∧
    (compileServer find ps).password = resolveField find ps.password ∧
    (compileServer find ps).sshKey = resolveField find ps.sshKey ∧
    (compileServer find ps).hostname = compileHostname (resolveField find ps.host) := by
  refine ⟨?_, ?_, ?_, ?_, rfl, rfl, rfl, rfl⟩
  · intro f h; simp [resolveField, findSecret, h]
  · intro f msg h
    by_cases hs : f.secret = [] <;> simp [resolveField, findSecret, hs, h]
  · intro f h
    by_cases hs : f.secret = [] <;> simp [resolveField, findSecret, hs, h]
  · intro f data hs h
    simp [resolveField, findSecret, hs, h]

/-- Witness for C9: a found secret overrides; an unfound one keeps the
literal. -/
theorem server_secret_resolution_witness :
    resolveField
        (fun n => if n = s2b "passwd" then FindResult.found (s2b "hunter2")
          else FindResult.notFound)
        ⟨s2b "literal", s2b "passwd"⟩ = s2b "hunter2" ∧
    resolveField
        (fun n => if n = s2b "passwd" then FindResult.found (s2b "hunter2")
          else FindResult.notFound)
        ⟨s2b "literal", s2b "missing"⟩ = s2b "literal" :=
  ⟨(server_secret_resolution
      (fun n => if n = s2b "passwd" then FindResult.found (s2b "hunter2")
        else FindResult.notFound)
      ⟨⟨[], []⟩, ⟨[], []⟩, ⟨[], []⟩, ⟨[], []⟩⟩).2.2.2.1
    ⟨s2b "literal", s2b "passwd"⟩ (s2b "hunter2") (by decide) (by decide),
  (server_secret_resolution
      (fun n => if n = s2b "passwd" then FindResult.found (s2b "hunter2")
        else FindResult.notFound)
      ⟨⟨[], []⟩, ⟨[], []⟩, ⟨[], []⟩, ⟨[], []⟩⟩).2.2.1
    ⟨s2b "literal", s2b "missing"⟩ (by decide)⟩

/-- C10: the resource linter accepts a parsed pipeline (returns no error)
iff the server host has a literal value or a secret name, the server user
does too, at least one of password and ssh_key does, every step name is
non-empty, and no two steps share a name; and for a matching resource
whose unmarshal succeeds, `parse` surfaces exactly `lint`'s verdict. -/
theorem lint_accepts_iff (p : ResPipeline) (r : RawResource)
    (hm : resourceMatch r = true) (hu : r.unmarshal = (p, none)) :
    (lint p = none ↔
      ((p.server.host.value ≠ [] ∨ p.server.host.secret ≠ []) ∧
        (p.server.user.value ≠ [] ∨ p.server.user.secret ≠ []) ∧
        (p.server.password.value ≠ [] ∨ p.server.password.secret ≠ [] ∨
          p.server.sshKey.value ≠ [] ∨ p.server.sshKey.secret ≠ []) ∧
        (∀ st ∈ p.steps, st.name ≠ []) ∧
        (p.steps.map ResStep.name).Nodup)) ∧
    (parse r).2.2 = lint p := by
  constructor
  · unfold lint
    by_cases h1 : p.server.host.value = [] ∧ p.server.host.secret = []
    · rw [if_pos h1]
      exact iff_of_false (by simp) (fun hc => by tauto)
    · rw [if_neg h1]
      by_cases h2 : p.server.user.value = [] ∧ p.server.user.secret = []
      · rw [if_pos h2]
        exact iff_of_false (by simp) (fun hc => by tauto)
      · rw [if_neg h2]
        by_cases h3 : p.server.password.value = [] ∧ p.server.password.secret = [] ∧
            p.server.sshKey.value = [] ∧ p.server.sshKey.secret = []
        · rw [if_pos h3]
          exact iff_of_false (by simp) (fun hc => by tauto)
        · rw [if_neg h3]
          rw [lintSteps_none_iff p.steps []]
          constructor
          · rintro ⟨ha, hb, _⟩
            exact ⟨by tauto, by tauto, by tauto, ha, hb⟩
          · rintro ⟨_, _, _, ha, hb⟩
            exact ⟨ha, hb, fun st _ h => by simp at h⟩
  · simp [parse, hm, hu]

/-- Witness for C10: a concrete valid pipeline passes the linter, and a
pipeline with a duplicate step name does not. -/
theorem lint_accepts_iff_witness :
    lint ⟨⟨⟨s2b "host.example", []⟩, ⟨s2b "root", []⟩, ⟨s2b "pw", []⟩, ⟨[], []⟩⟩,
        [⟨s2b "build"⟩, ⟨s2b "test"⟩]⟩ = none :=
  ((lint_accepts_iff
      ⟨⟨⟨s2b "host.example", []⟩, ⟨s2b "root", []⟩, ⟨s2b "pw", []⟩, ⟨[], []⟩⟩,
        [⟨s2b "build"⟩, ⟨s2b "test"⟩]⟩
      ⟨s2b "pipeline", s2b "ssh",
        (⟨⟨⟨s2b "host.example", []⟩, ⟨s2b "root", []⟩, ⟨s2b "pw", []⟩, ⟨[], []⟩⟩,
          [⟨s2b "build"⟩, ⟨s2b "test"⟩]⟩, none)⟩
      (by decide) rfl).1).mpr (by decide)
